import Mathlib

/-
Verification of the trial orchestration and aggregation engine of
simple_network_sim (src/simple_network_sim/sampleUseOfModel.py).

The central function is `runSimulation` (lines 58-103 of the source).  Its
external collaborators — `copy.deepcopy`, `ss.exposeRegions`,
`ss.basicSimulationInternalAgeStructure` — are not part of this repository,
so they appear here as parameters of the embedding:

* `E : I → N → N` stands for `ss.exposeRegions`: applied to an InfectionSet
  and a network, it yields the network with its `initialState` mutated.
* `S : N → Nat → List Row` stands for the pure observable output of
  `ss.basicSimulationInternalAgeStructure(network, max_time)`: the
  DataFrame of TimeSeriesRow values, modelled as a list of rows.
* `M : N → Nat → N` stands for whatever in-place mutation
  `basicSimulationInternalAgeStructure` performs on its network argument.

Mutation is modelled with an explicit heap: a `List N` of network objects,
indexed by natural-number references.  `copy.deepcopy(network)` allocates a
fresh cell at the end of the heap holding a copy of the template's value;
all in-place mutation is `List.set` on the clone's cell.  This makes the
template-isolation and frame claims about `runSimulation` real statements
rather than artifacts of value semantics.

The pandas fragment of the multi-trial path is embedded as association
lists keyed by the composite key (time, node, age, state):

* `set_index` models `DataFrame.set_index(["time","node","age","state"])`.
* `aggregated.total += indexed.total` aligns the two keyed columns: the
  accumulator keeps its own key set, and any key whose value is missing on
  either side becomes NaN.  NaN is modelled as `none` in `Option ℚ`
  (floats are modelled as exact rationals).
* `reset_index` followed by `averaged.total /= trials` is `resetAndDivide`.

Node, age and compartment labels are modelled as natural numbers (their
identity is all the code ever uses).
-/

namespace SNS

/-- One row of the outbreak time series: the columns (time, node, age,
state, total) of the DataFrame produced by the model.  The `total` column
is a float column, modelled as `Option ℚ` where `none` is NaN. -/
structure Row where
  time : Nat
  node : Nat
  age : Nat
  state : Nat
  total : Option ℚ
deriving DecidableEq, Repr

/-- The composite key used by `set_index(["time", "node", "age", "state"])`. -/
abbrev Key := Nat × Nat × Nat × Nat

/-- The composite key of a row. -/
def Row.key (r : Row) : Key := (r.time, r.node, r.age, r.state)

/-- A keyed single-column DataFrame (index → total), as produced by
`set_index` and held in the `aggregated` accumulator. -/
abbrev DF := List (Key × Option ℚ)

/-- Look a key up in a keyed frame (first occurrence, as in a pandas index
with unique labels).  `none` means the key is absent from the index. -/
def lookupTotal (k : Key) : DF → Option (Option ℚ)
  | [] => none
  | kv :: rest => if kv.1 = k then some kv.2 else lookupTotal k rest

/-- pandas addition of one aligned value: adding a float to a value that is
missing on either side (or already NaN) yields NaN. -/
def combineTotal (v : Option ℚ) (w : Option (Option ℚ)) : Option ℚ :=
  match v, w with
  | some x, some (some y) => some (x + y)
  | _, _ => none

/-- `aggregated.total += indexed.total` (source line 98): the accumulator
keeps its own key set and row order; each of its entries is combined with
the aligned entry of `indexed`, missing alignments becoming NaN. -/
def addTotals (agg ind : DF) : DF :=
  agg.map fun kv => (kv.1, combineTotal kv.2 (lookupTotal kv.1 ind))

/-- Lines 95-98 of the source: `aggregated = indexed` on the first trial,
`aggregated.total += indexed.total` afterwards. -/
def mergeAgg (agg : Option DF) (ind : DF) : DF :=
  match agg with
  | none => ind
  | some a => addTotals a ind

/-- `DataFrame.set_index(["time", "node", "age", "state"])` (line 91). -/
def set_index (rows : List Row) : DF :=
  rows.map fun r => (r.key, r.total)

/-- Lines 100-101: `averaged = aggregated.reset_index()` followed by
`averaged.total /= trials` — restore the five columns and divide every
total by the trial count (NaN stays NaN). -/
def resetAndDivide (agg : DF) (trials : Int) : List Row :=
  agg.map fun kv =>
    { time := kv.1.1, node := kv.1.2.1, age := kv.1.2.2.1, state := kv.1.2.2.2,
      total := kv.2.map fun q => q / (trials : ℚ) }

/-- The index (key set, in order) of a keyed frame. -/
def keysOf (l : DF) : List Key := l.map Prod.fst

/-- Dereference a heap cell. -/
def getRef {N : Type} [Inhabited N] (heap : List N) (r : Nat) : N :=
  (heap[r]?).getD default

/-- The part of one trial that runs after `copy.deepcopy` and after
`initialInfections[i]` has been resolved: with the clone already sitting
in cell `r` of the heap, `ss.exposeRegions` mutates the clone's initial
state in place, then the model runs on the clone (and may mutate it); the
trial's rows and the resulting heap are returned. -/
def runOneTrial {N I : Type} [Inhabited N] (E : I → N → N)
    (S : N → Nat → List Row) (M : N → Nat → N) (t : Nat) (inf : I)
    (r : Nat) (heap1 : List N) : List Row × List N :=
  let heap2 := heap1.set r (E inf (getRef heap1 r))
  let rows := S (getRef heap2 r) t
  let heap3 := heap2.set r (M (getRef heap2 r) t)
  (rows, heap3)

/-- The loop of the multi-trial path (source lines 86-98), one iteration
per recursive step.  For trial index `i`:
`disposableNetwork = copy.deepcopy(network)` allocates a fresh heap cell
holding the template's value; then `initialInfections[i]` is indexed (an
IndexError aborts the run — after the clone was made); then the trial runs
on the clone and its output is re-keyed by `set_index` and merged into the
accumulator. -/
def runTrialsAux {N I : Type} [Inhabited N] (E : I → N → N)
    (S : N → Nat → List Row) (M : N → Nat → N) (netRef : Nat) (t : Nat)
    (infs : List I) : Nat → Nat → Option DF → List N → Option DF × List N
  | 0, _, agg, heap => (agg, heap)
  | n + 1, i, agg, heap =>
    let heap1 := heap ++ [getRef heap netRef]
    match infs[i]? with
    | none => (none, heap1)
    | some inf =>
      let res := runOneTrial E S M t inf heap.length heap1
      runTrialsAux E S M netRef t infs n (i + 1)
        (some (mergeAgg agg (set_index res.1))) res.2

/-- The single-trial fast path (source lines 77-82): deep-copy the
template, index `initialInfections[0]` (an IndexError aborts the run,
after the clone was made), expose the clone, run the model once and return
its rows unmodified. -/
def runSinglePath {N I : Type} [Inhabited N] (E : I → N → N)
    (S : N → Nat → List Row) (M : N → Nat → N) (netRef : Nat) (t : Nat)
    (infs : List I) (heap : List N) : Option (List Row) × List N :=
  let heap1 := heap ++ [getRef heap netRef]
  match infs[0]? with
  | none => (none, heap1)
  | some inf =>
    let res := runOneTrial E S M t inf heap.length heap1
    (some res.1, res.2)

/-- The multi-trial path (source lines 83-103): run the loop starting from
`aggregated = None`, then reset the index and divide by the trial count. -/
def runMultiPath {N I : Type} [Inhabited N] (E : I → N → N)
    (S : N → Nat → List Row) (M : N → Nat → N) (netRef : Nat) (t : Nat)
    (trials : Int) (infs : List I) (heap : List N) :
    Option (List Row) × List N :=
  match runTrialsAux E S M netRef t infs trials.toNat 0 none heap with
  | (none, h) => (none, h)
  | (some agg, h) => (some (resetAndDivide agg trials), h)

/-- `runSimulation(network, max_time, trials, initialInfections)`
(source lines 58-103).  `none` as the first component models the call
raising an exception (the heap at that moment is still reported, so frame
facts about failed runs can be stated). -/
def runSimulation {N I : Type} [Inhabited N] (E : I → N → N)
    (S : N → Nat → List Row) (M : N → Nat → N) (netRef : Nat) (t : Nat)
    (trials : Int) (infs : List I) (heap : List N) :
    Option (List Row) × List N :=
  if trials ≤ 1 then runSinglePath E S M netRef t infs heap
  else runMultiPath E S M netRef t trials infs heap

/-- Heap-free mirror of the multi-trial loop: trial `i` computes its rows
from the template's original value and `infs[i]` alone. -/
def pureLoop {N I : Type} (E : I → N → N) (S : N → Nat → List Row)
    (template : N) (t : Nat) (infs : List I) :
    Nat → Nat → Option DF → Option DF
  | 0, _, agg => agg
  | n + 1, i, agg =>
    match infs[i]? with
    | none => none
    | some inf =>
      pureLoop E S template t infs n (i + 1)
        (some (mergeAgg agg (set_index (S (E inf template) t))))

/-- Heap-free mirror of `runSimulation`: the returned rows as a function of
the template's original value, the time horizon, the trial count and the
infection sets only.  Used to state trial isolation: no trial's mutations
can influence another trial or the final result. -/
def pureRunSimulation {N I : Type} (E : I → N → N) (S : N → Nat → List Row)
    (template : N) (t : Nat) (trials : Int) (infs : List I) :
    Option (List Row) :=
  if trials ≤ 1 then
    match infs[0]? with
    | none => none
    | some inf => some (S (E inf template) t)
  else
    match pureLoop E S template t infs trials.toNat 0 none with
    | none => none
    | some agg => some (resetAndDivide agg trials)

/-- The keyed result of trial `i` as a pure value: what
`basicSimulationInternalAgeStructure(...).set_index([...])` yields for the
`i`-th infection set applied to a fresh clone of the template. -/
def trialIndexed {N I : Type} [Inhabited I] (E : I → N → N)
    (S : N → Nat → List Row) (template : N) (t : Nat) (infs : List I)
    (i : Nat) : DF :=
  set_index (S (E (infs.getD i default) template) t)

/- Concrete instantiations used by closed counterexamples and witnesses.
The network object is a single rational number recording how much
infection has been injected; compartment 0 encodes S, compartment 1
encodes I, out of a population of 1000 in one node and one age group. -/

/-- Toy exposure: injecting an infection set adds its count to the
network's injected amount. -/
def egExpose (inf n : ℚ) : ℚ := n + inf

/-- Toy model output: at any horizon, one S row (population minus the
injected amount) and one I row (the injected amount) at time 0. -/
def egRows (n : ℚ) (_t : Nat) : List Row :=
  [⟨0, 0, 0, 0, some (1000 - n)⟩, ⟨0, 0, 0, 1, some n⟩]

/-- Toy model mutation: the run leaves the network unchanged. -/
def egMut (n : ℚ) (_t : Nat) : ℚ := n

/-- Toy exposure for the key-mismatch scenarios: the infection set
replaces the network's state wholesale. -/
def egExpose2 (inf _n : ℚ) : ℚ := inf

/-- Toy model output whose key space depends on the network state: state 1
produces two keys, anything else only one. -/
def egRows2 (n : ℚ) (_t : Nat) : List Row :=
  if n = 1 then [⟨0, 0, 0, 0, some 5⟩, ⟨0, 0, 0, 1, some 7⟩]
  else [⟨0, 0, 0, 0, some 3⟩]

/-- The I-compartment total of trial `i` in the toy three-trial scenario:
`10 + 10 i`, i.e. 10, 20, 30. -/
def egFI (i : Nat) : ℚ := 10 + 10 * (i : ℚ)

/-- The value of `args.regions` for the CLI's `random` subcommand, from
`build_args` (source line 230): `randomCmd.add_argument("--regions",
default=1, ...)` declares the flag with no `type=` conversion, so argparse
stores the raw command-line token (a Python str) when the flag is
supplied, and the default object — the int 1 — when it is omitted.
`main` (line 44) passes this value through to `randomlyInfectRegions`
verbatim. -/
def regionsArg : Option String → String ⊕ Int
  | some tok => Sum.inl tok
  | none => Sum.inr 1

/-- The value of `args.trials` for the `random` subcommand, from
`build_args` (line 235): declared with `type=int`, so a supplied token is
converted to an int (failure to parse is an argparse error) and the
default is the int 100. -/
def trialsArg : Option String → Option Int
  | some tok => tok.toInt?
  | none => some 100

/- ------------------------------------------------------------------ -/
/- Helper lemmas about the heap and the keyed frames.                  -/
/- ------------------------------------------------------------------ -/

theorem getRef_append_self {N : Type} [Inhabited N] (l : List N) (x : N) :
    getRef (l ++ [x]) l.length = x := by
  simp [getRef, List.getElem?_concat_length]

theorem getRef_append_lt {N : Type} [Inhabited N] (l : List N) (x : N)
    (r : Nat) (h : r < l.length) : getRef (l ++ [x]) r = getRef l r := by
  simp [getRef, List.getElem?_append_left h]

theorem getRef_set_self {N : Type} [Inhabited N] (l : List N) (x : N)
    (r : Nat) (h : r < l.length) : getRef (l.set r x) r = x := by
  simp [getRef, List.getElem?_set_self h]

theorem getRef_set_ne {N : Type} [Inhabited N] (l : List N) (x : N)
    (j r : Nat) (h : j ≠ r) : getRef (l.set j x) r = getRef l r := by
  simp [getRef, List.getElem?_set_ne h]

theorem getElem?_eq_some_getD {I : Type} [Inhabited I] (l : List I)
    (i : Nat) (h : i < l.length) : l[i]? = some (l.getD i default) := by
  rw [List.getD_eq_getElem?_getD, List.getElem?_eq_getElem h]
  rfl

theorem getElem?_none_of_le {I : Type} (l : List I) (i : Nat)
    (h : l.length ≤ i) : l[i]? = none :=
  List.getElem?_eq_none h

theorem lookupTotal_addTotals (a b : DF) (k : Key) :
    lookupTotal k (addTotals a b)
      = (lookupTotal k a).map fun v => combineTotal v (lookupTotal k b) := by
  induction a with
  | nil => rfl
  | cons kv rest ih =>
    by_cases hk : kv.1 = k
    · simp [addTotals, lookupTotal, hk]
    · simpa [addTotals, lookupTotal, hk] using ih

theorem keysOf_addTotals (a b : DF) : keysOf (addTotals a b) = keysOf a := by
  simp [keysOf, addTotals, List.map_map, Function.comp]

theorem lookup_isSome_of_mem (l : DF) (k : Key) (h : k ∈ keysOf l) :
    (lookupTotal k l).isSome = true := by
  induction l with
  | nil => simp [keysOf] at h
  | cons kv rest ih =>
    by_cases hk : kv.1 = k
    · simp [lookupTotal, hk]
    · have hmem : k ∈ keysOf rest := by
        simp only [keysOf, List.map_cons, List.mem_cons] at h
        rcases h with h1 | h1
        · exact absurd h1.symm hk
        · simpa [keysOf] using h1
      simpa [lookupTotal, hk] using ih hmem

theorem lookupTotal_map_val (l : DF) (g : Option ℚ → Option ℚ) (k : Key) :
    lookupTotal k (l.map fun kv => (kv.1, g kv.2))
      = (lookupTotal k l).map g := by
  induction l with
  | nil => rfl
  | cons kv rest ih => by_cases hk : kv.1 = k <;> simp [lookupTotal, hk, ih]

theorem keysOf_map_val (l : DF) (g : Option ℚ → Option ℚ) :
    keysOf (l.map fun kv => (kv.1, g kv.2)) = keysOf l := by
  simp [keysOf, List.map_map, Function.comp]

theorem keysOf_set_index (rows : List Row) :
    keysOf (set_index rows) = rows.map Row.key := by
  simp [keysOf, set_index, List.map_map, Function.comp]

theorem set_index_resetAndDivide (agg : DF) (trials : Int) :
    set_index (resetAndDivide agg trials)
      = agg.map fun kv => (kv.1, kv.2.map fun q => q / (trials : ℚ)) := by
  simp only [set_index, resetAndDivide, List.map_map]
  rfl

theorem resetAndDivide_one (rows : List Row) :
    resetAndDivide (set_index rows) 1 = rows := by
  induction rows with
  | nil => rfl
  | cons r rest ih =>
    have hr : (⟨r.time, r.node, r.age, r.state,
        r.total.map fun q => q / (((1 : Int)) : ℚ)⟩ : Row) = r := by
      cases r with
      | mk tt nn aa ss tot => cases tot <;> simp
    calc resetAndDivide (set_index (r :: rest)) 1
        = (⟨r.time, r.node, r.age, r.state,
            r.total.map fun q => q / (((1 : Int)) : ℚ)⟩ : Row)
          :: resetAndDivide (set_index rest) 1 := rfl
      _ = r :: rest := by rw [hr, ih]

theorem runOneTrial_clone {N I : Type} [Inhabited N] (E : I → N → N)
    (S : N → Nat → List Row) (M : N → Nat → N) (t : Nat) (inf : I)
    (heap : List N) (x : N) :
    runOneTrial E S M t inf heap.length (heap ++ [x])
      = (S (E inf x) t,
         (heap ++ [x]).set heap.length (M (E inf x) t)) := by
  have hA : getRef (heap ++ [x]) heap.length = x := getRef_append_self heap x
  have hs : getRef ((heap ++ [x]).set heap.length (E inf x)) heap.length
      = E inf x := getRef_set_self _ _ _ (by simp)
  simp only [runOneTrial, hA, hs, List.set_set]

/- ------------------------------------------------------------------ -/
/- The loop characterisations.                                         -/
/- ------------------------------------------------------------------ -/

theorem runTrialsAux_bridge {N I : Type} [Inhabited N] (E : I → N → N)
    (S : N → Nat → List Row) (M : N → Nat → N) (netRef : Nat) (t : Nat)
    (infs : List I) :
    ∀ (n i : Nat) (agg : Option DF) (heap : List N), netRef < heap.length →
      (runTrialsAux E S M netRef t infs n i agg heap).1
          = pureLoop E S (getRef heap netRef) t infs n i agg
        ∧ getRef (runTrialsAux E S M netRef t infs n i agg heap).2 netRef
          = getRef heap netRef := by
  intro n
  induction n with
  | zero => intro i agg heap h; exact ⟨rfl, rfl⟩
  | succ n ih =>
    intro i agg heap h
    have hB : getRef (heap ++ [getRef heap netRef]) netRef
        = getRef heap netRef := getRef_append_lt heap _ netRef h
    cases h0 : infs[i]? with
    | none =>
      constructor
      · simp only [runTrialsAux, pureLoop, h0]
      · simp only [runTrialsAux, h0]
        exact hB
    | some inf =>
      have hclone := runOneTrial_clone E S M t inf heap (getRef heap netRef)
      have hlen3 : ((heap ++ [getRef heap netRef]).set heap.length
          (M (E inf (getRef heap netRef)) t)).length = heap.length + 1 := by
        simp
      have hC : getRef ((heap ++ [getRef heap netRef]).set heap.length
          (M (E inf (getRef heap netRef)) t)) netRef = getRef heap netRef := by
        rw [getRef_set_ne _ _ _ _ (Nat.ne_of_gt h), hB]
      obtain ⟨ih1, ih2⟩ := ih (i + 1)
        (some (mergeAgg agg (set_index (S (E inf (getRef heap netRef)) t))))
        ((heap ++ [getRef heap netRef]).set heap.length
          (M (E inf (getRef heap netRef)) t))
        (by rw [hlen3]; omega)
      constructor
      · simp only [runTrialsAux, h0, hclone]
        rw [ih1, hC]
        simp only [pureLoop, h0]
      · simp only [runTrialsAux, h0, hclone]
        rw [ih2, hC]

theorem pureLoop_sum {N I : Type} [Inhabited I] (E : I → N → N)
    (S : N → Nat → List Row) (template : N) (t : Nat) (infs : List I)
    (k : Key) (f : Nat → ℚ) :
    ∀ (n i : Nat) (acc : DF) (s : ℚ),
      i + n ≤ infs.length →
      lookupTotal k acc = some (some s) →
      (∀ j, i ≤ j → j < i + n →
        lookupTotal k (trialIndexed E S template t infs j)
          = some (some (f j))) →
      ∃ agg, pureLoop E S template t infs n i (some acc) = some agg ∧
        lookupTotal k agg
          = some (some (s + ∑ j ∈ Finset.range n, f (i + j))) := by
  intro n
  induction n with
  | zero =>
    intro i acc s hlen hacc htr
    exact ⟨acc, rfl, by simpa using hacc⟩
  | succ n ih =>
    intro i acc s hlen hacc htr
    have hi : i < infs.length := by omega
    have hsome : infs[i]? = some (infs.getD i default) :=
      getElem?_eq_some_getD _ _ hi
    have hstep : lookupTotal k
        (addTotals acc (trialIndexed E S template t infs i))
        = some (some (s + f i)) := by
      rw [lookupTotal_addTotals, hacc, htr i (Nat.le_refl i) (by omega)]
      rfl
    obtain ⟨agg, hrun, hlook⟩ := ih (i + 1)
      (addTotals acc (trialIndexed E S template t infs i)) (s + f i)
      (by omega) hstep (fun j hj1 hj2 => htr j (by omega) (by omega))
    refine ⟨agg, ?_, ?_⟩
    · simp only [pureLoop, hsome, mergeAgg]
      simpa [trialIndexed] using hrun
    · rw [hlook]
      have hshift : ∑ j ∈ Finset.range n, f (i + 1 + j)
          = ∑ j ∈ Finset.range n, f (i + (j + 1)) :=
        Finset.sum_congr rfl (fun j _ => by
          have : i + 1 + j = i + (j + 1) := by omega
          rw [this])
      have hsucc : ∑ j ∈ Finset.range (n + 1), f (i + j)
          = (∑ j ∈ Finset.range n, f (i + (j + 1))) + f (i + 0) :=
        Finset.sum_range_succ' (fun j => f (i + j)) n
      rw [hshift, hsucc]
      have : f (i + 0) = f i := by rw [Nat.add_zero]
      rw [this]
      exact congrArg (fun q => some (some q)) (by ring)

theorem pureLoop_keys {N I : Type} (E : I → N → N)
    (S : N → Nat → List Row) (template : N) (t : Nat) (infs : List I) :
    ∀ (n i : Nat) (acc : DF),
      i + n ≤ infs.length →
      ∃ agg, pureLoop E S template t infs n i (some acc) = some agg ∧
        keysOf agg = keysOf acc := by
  intro n
  induction n with
  | zero => intro i acc hlen; exact ⟨acc, rfl, rfl⟩
  | succ n ih =>
    intro i acc hlen
    have hi : i < infs.length := by omega
    cases h0 : infs[i]? with
    | none =>
      exact absurd h0 (by
        rw [List.getElem?_eq_getElem hi]
        exact fun hx => Option.noConfusion hx)
    | some inf =>
      obtain ⟨agg, hrun, hkeys⟩ := ih (i + 1)
        (addTotals acc (set_index (S (E inf template) t))) (by omega)
      refine ⟨agg, ?_, ?_⟩
      · simp only [pureLoop, h0, mergeAgg]
        exact hrun
      · rw [hkeys, keysOf_addTotals]

theorem pureLoop_none_pres {N I : Type} (E : I → N → N)
    (S : N → Nat → List Row) (template : N) (t : Nat) (infs : List I)
    (k : Key) :
    ∀ (n i : Nat) (acc : DF),
      i + n ≤ infs.length →
      lookupTotal k acc = some none →
      ∃ agg, pureLoop E S template t infs n i (some acc) = some agg ∧
        lookupTotal k agg = some none := by
  intro n
  induction n with
  | zero => intro i acc hlen hacc; exact ⟨acc, rfl, hacc⟩
  | succ n ih =>
    intro i acc hlen hacc
    have hi : i < infs.length := by omega
    cases h0 : infs[i]? with
    | none =>
      exact absurd h0 (by
        rw [List.getElem?_eq_getElem hi]
        exact fun hx => Option.noConfusion hx)
    | some inf =>
      have hstep : lookupTotal k
          (addTotals acc (set_index (S (E inf template) t))) = some none := by
        rw [lookupTotal_addTotals, hacc]
        rfl
      obtain ⟨agg, hrun, hlook⟩ := ih (i + 1)
        (addTotals acc (set_index (S (E inf template) t))) (by omega) hstep
      refine ⟨agg, ?_, hlook⟩
      simp only [pureLoop, h0, mergeAgg]
      exact hrun

theorem pureLoop_nan {N I : Type} [Inhabited I] (E : I → N → N)
    (S : N → Nat → List Row) (template : N) (t : Nat) (infs : List I)
    (k : Key) :
    ∀ (n i : Nat) (acc : DF),
      i + n ≤ infs.length →
      (lookupTotal k acc).isSome = true →
      ∀ j, i ≤ j → j < i + n →
        lookupTotal k (trialIndexed E S template t infs j) = none →
      ∃ agg, pureLoop E S template t infs n i (some acc) = some agg ∧
        lookupTotal k agg = some none := by
  intro n
  induction n with
  | zero =>
    intro i acc _ _ j hj1 hj2 _
    exact absurd hj2 (by omega)
  | succ n ih =>
    intro i acc hlen hin j hj1 hj2 hmiss
    have hi : i < infs.length := by omega
    have hsome : infs[i]? = some (infs.getD i default) :=
      getElem?_eq_some_getD _ _ hi
    obtain ⟨v, hv⟩ := Option.isSome_iff_exists.mp hin
    by_cases hji : j = i
    · have hstep : lookupTotal k
          (addTotals acc (trialIndexed E S template t infs i)) = some none := by
        rw [lookupTotal_addTotals, hv]
        subst hji
        rw [hmiss]
        cases v <;> rfl
      obtain ⟨agg, hrun, hlook⟩ := pureLoop_none_pres E S template t infs k
        n (i + 1) (addTotals acc (trialIndexed E S template t infs i))
        (by omega) hstep
      refine ⟨agg, ?_, hlook⟩
      simp only [pureLoop, hsome, mergeAgg]
      simpa [trialIndexed] using hrun
    · have hin2 : (lookupTotal k
          (addTotals acc (trialIndexed E S template t infs i))).isSome
          = true := by
        rw [lookupTotal_addTotals, hv]
        rfl
      obtain ⟨agg, hrun, hlook⟩ := ih (i + 1)
        (addTotals acc (trialIndexed E S template t infs i)) (by omega)
        hin2 j (by omega) (by omega) hmiss
      refine ⟨agg, ?_, hlook⟩
      simp only [pureLoop, hsome, mergeAgg]
      simpa [trialIndexed] using hrun

theorem runTrialsAux_fail {N I : Type} [Inhabited N] (E : I → N → N)
    (S : N → Nat → List Row) (M : N → Nat → N) (netRef : Nat) (t : Nat)
    (infs : List I) :
    ∀ (n i : Nat) (agg : Option DF) (heap : List N),
      i ≤ infs.length → infs.length < i + n →
      (runTrialsAux E S M netRef t infs n i agg heap).1 = none ∧
        (runTrialsAux E S M netRef t infs n i agg heap).2.length
          = heap.length + (infs.length - i) + 1 := by
  intro n
  induction n with
  | zero => intro i agg heap h1 h2; exact absurd h2 (by omega)
  | succ n ih =>
    intro i agg heap h1 h2
    by_cases hi : i < infs.length
    · have hsome : infs[i]? = some infs[i] := List.getElem?_eq_getElem hi
      have hclone := runOneTrial_clone E S M t infs[i] heap
        (getRef heap netRef)
      obtain ⟨ih1, ih2⟩ := ih (i + 1)
        (some (mergeAgg agg (set_index (S (E infs[i] (getRef heap netRef)) t))))
        ((heap ++ [getRef heap netRef]).set heap.length
          (M (E infs[i] (getRef heap netRef)) t))
        (by omega) (by omega)
      constructor
      · simp only [runTrialsAux, hsome, hclone]
        exact ih1
      · simp only [runTrialsAux, hsome, hclone]
        rw [ih2]
        simp only [List.length_set, List.length_append, List.length_cons,
          List.length_nil]
        omega
    · have hieq : i = infs.length := by omega
      have hnone : infs[i]? = none := getElem?_none_of_le _ _ (by omega)
      constructor
      · simp only [runTrialsAux, hnone]
      · simp only [runTrialsAux, hnone]
        simp only [List.length_append, List.length_cons, List.length_nil]
        omega


/- ------------------------------------------------------------------ -/
/- General consequences, shared by the claim theorems below.           -/
/- ------------------------------------------------------------------ -/

theorem lookupTotal_resetAndDivide (agg : DF) (trials : Int) (k : Key) :
    lookupTotal k (set_index (resetAndDivide agg trials))
      = (lookupTotal k agg).map fun v => v.map fun q => q / (trials : ℚ) := by
  rw [set_index_resetAndDivide]
  exact lookupTotal_map_val agg _ k

theorem map_key_resetAndDivide (agg : DF) (trials : Int) :
    (resetAndDivide agg trials).map Row.key = keysOf agg := by
  have h1 : (resetAndDivide agg trials).map Row.key
      = keysOf (set_index (resetAndDivide agg trials)) :=
    (keysOf_set_index _).symm
  rw [h1, set_index_resetAndDivide]
  exact keysOf_map_val agg _

theorem pureLoop_split {N I : Type} [Inhabited I] (E : I → N → N)
    (S : N → Nat → List Row) (template : N) (t : Nat) (infs : List I)
    (m : Nat) (h0lt : 0 < infs.length) :
    pureLoop E S template t infs (m + 1) 0 none
      = pureLoop E S template t infs m 1
          (some (trialIndexed E S template t infs 0)) := by
  have hsome0 : infs[0]? = some (infs.getD 0 default) :=
    getElem?_eq_some_getD _ _ h0lt
  simp only [pureLoop, hsome0, mergeAgg, trialIndexed]

theorem run_avg {N I : Type} [Inhabited N] [Inhabited I] (E : I → N → N)
    (S : N → Nat → List Row) (M : N → Nat → N) (netRef t : Nat)
    (trials : Int) (infs : List I) (heap : List N) (k : Key) (f : Nat → ℚ)
    (href : netRef < heap.length) (htr : 1 < trials)
    (hlen : trials.toNat ≤ infs.length)
    (hf : ∀ i, i < trials.toNat →
      lookupTotal k (trialIndexed E S (getRef heap netRef) t infs i)
        = some (some (f i))) :
    ∃ out, (runSimulation E S M netRef t trials infs heap).1 = some out ∧
      lookupTotal k (set_index out)
        = some (some ((∑ i ∈ Finset.range trials.toNat, f i)
            / (trials : ℚ))) := by
  have htle : ¬ trials ≤ 1 := by omega
  obtain ⟨m, hm⟩ : ∃ m, trials.toNat = m + 1 := ⟨trials.toNat - 1, by omega⟩
  have h0lt : 0 < infs.length := by omega
  have hstep : pureLoop E S (getRef heap netRef) t infs trials.toNat 0 none
      = pureLoop E S (getRef heap netRef) t infs m 1
          (some (trialIndexed E S (getRef heap netRef) t infs 0)) := by
    rw [hm]
    exact pureLoop_split E S _ t infs m h0lt
  obtain ⟨agg, hrun, hlook⟩ := pureLoop_sum E S (getRef heap netRef) t infs
    k f m 1 (trialIndexed E S (getRef heap netRef) t infs 0) (f 0)
    (by omega) (hf 0 (by omega)) (fun j hj1 hj2 => hf j (by omega))
  obtain ⟨hb1, _⟩ := runTrialsAux_bridge E S M netRef t infs trials.toNat 0
    none heap href
  rw [hstep, hrun] at hb1
  have hsum : f 0 + ∑ j ∈ Finset.range m, f (1 + j)
      = ∑ i ∈ Finset.range trials.toNat, f i := by
    rw [hm, Finset.sum_range_succ' f m]
    have hc : ∑ j ∈ Finset.range m, f (1 + j)
        = ∑ j ∈ Finset.range m, f (j + 1) :=
      Finset.sum_congr rfl (fun j _ => by rw [Nat.add_comm])
    rw [hc]
    ring
  refine ⟨resetAndDivide agg trials, ?_, ?_⟩
  · simp only [runSimulation, if_neg htle, runMultiPath]
    cases hres : runTrialsAux E S M netRef t infs trials.toNat 0 none heap with
    | mk o h2 =>
      rw [hres] at hb1
      have ho : o = some agg := hb1
      subst ho
      rfl
  · rw [lookupTotal_resetAndDivide, hlook]
    simp only [Option.map_some']
    rw [hsum]

theorem run_first_trial_keys {N I : Type} [Inhabited N] [Inhabited I]
    (E : I → N → N) (S : N → Nat → List Row) (M : N → Nat → N)
    (netRef t : Nat) (trials : Int) (infs : List I) (heap : List N)
    (href : netRef < heap.length) (htr : 1 < trials)
    (hlen : trials.toNat ≤ infs.length) :
    ∃ out, (runSimulation E S M netRef t trials infs heap).1 = some out ∧
      out.map Row.key
        = keysOf (trialIndexed E S (getRef heap netRef) t infs 0) := by
  have htle : ¬ trials ≤ 1 := by omega
  obtain ⟨m, hm⟩ : ∃ m, trials.toNat = m + 1 := ⟨trials.toNat - 1, by omega⟩
  have h0lt : 0 < infs.length := by omega
  have hstep : pureLoop E S (getRef heap netRef) t infs trials.toNat 0 none
      = pureLoop E S (getRef heap netRef) t infs m 1
          (some (trialIndexed E S (getRef heap netRef) t infs 0)) := by
    rw [hm]
    exact pureLoop_split E S _ t infs m h0lt
  obtain ⟨agg, hrun, hkeys⟩ := pureLoop_keys E S (getRef heap netRef) t infs
    m 1 (trialIndexed E S (getRef heap netRef) t infs 0) (by omega)
  obtain ⟨hb1, _⟩ := runTrialsAux_bridge E S M netRef t infs trials.toNat 0
    none heap href
  rw [hstep, hrun] at hb1
  refine ⟨resetAndDivide agg trials, ?_, ?_⟩
  · simp only [runSimulation, if_neg htle, runMultiPath]
    cases hres : runTrialsAux E S M netRef t infs trials.toNat 0 none heap with
    | mk o h2 =>
      rw [hres] at hb1
      have ho : o = some agg := hb1
      subst ho
      rfl
  · rw [map_key_resetAndDivide, hkeys]

theorem run_nan {N I : Type} [Inhabited N] [Inhabited I] (E : I → N → N)
    (S : N → Nat → List Row) (M : N → Nat → N) (netRef t : Nat)
    (trials : Int) (infs : List I) (heap : List N) (k : Key) (j : Nat)
    (href : netRef < heap.length) (htr : 1 < trials)
    (hlen : trials.toNat ≤ infs.length)
    (hk : k ∈ keysOf (trialIndexed E S (getRef heap netRef) t infs 0))
    (hj1 : 1 ≤ j) (hj2 : j < trials.toNat)
    (hmiss : lookupTotal k (trialIndexed E S (getRef heap netRef) t infs j)
      = none) :
    ∃ out, (runSimulation E S M netRef t trials infs heap).1 = some out ∧
      lookupTotal k (set_index out) = some none := by
  have htle : ¬ trials ≤ 1 := by omega
  obtain ⟨m, hm⟩ : ∃ m, trials.toNat = m + 1 := ⟨trials.toNat - 1, by omega⟩
  have h0lt : 0 < infs.length := by omega
  have hstep : pureLoop E S (getRef heap netRef) t infs trials.toNat 0 none
      = pureLoop E S (getRef heap netRef) t infs m 1
          (some (trialIndexed E S (getRef heap netRef) t infs 0)) := by
    rw [hm]
    exact pureLoop_split E S _ t infs m h0lt
  obtain ⟨agg, hrun, hlook⟩ := pureLoop_nan E S (getRef heap netRef) t infs
    k m 1 (trialIndexed E S (getRef heap netRef) t infs 0) (by omega)
    (lookup_isSome_of_mem _ _ hk) j hj1 (by omega) hmiss
  obtain ⟨hb1, _⟩ := runTrialsAux_bridge E S M netRef t infs trials.toNat 0
    none heap href
  rw [hstep, hrun] at hb1
  refine ⟨resetAndDivide agg trials, ?_, ?_⟩
  · simp only [runSimulation, if_neg htle, runMultiPath]
    cases hres : runTrialsAux E S M netRef t infs trials.toNat 0 none heap with
    | mk o h2 =>
      rw [hres] at hb1
      have ho : o = some agg := hb1
      subst ho
      rfl
  · rw [lookupTotal_resetAndDivide, hlook]
    simp only [Option.map_some', Option.map_none']

theorem run_fail {N I : Type} [Inhabited N] (E : I → N → N)
    (S : N → Nat → List Row) (M : N → Nat → N) (netRef t : Nat)
    (trials : Int) (infs : List I) (heap : List N)
    (htr : 1 < trials) (hlen : infs.length < trials.toNat) :
    (runSimulation E S M netRef t trials infs heap).1 = none ∧
      (runSimulation E S M netRef t trials infs heap).2.length
        = heap.length + infs.length + 1 := by
  have htle : ¬ trials ≤ 1 := by omega
  obtain ⟨h1, h2⟩ := runTrialsAux_fail E S M netRef t infs trials.toNat 0
    none heap (by omega) (by omega)
  simp only [runSimulation, if_neg htle, runMultiPath]
  cases hres : runTrialsAux E S M netRef t infs trials.toNat 0 none heap with
  | mk o hh =>
    rw [hres] at h1 h2
    have ho : o = none := h1
    subst ho
    have hlen2 : hh.length = heap.length + (infs.length - 0) + 1 := h2
    refine ⟨rfl, ?_⟩
    show hh.length = heap.length + infs.length + 1
    omega

theorem run_isolation {N I : Type} [Inhabited N] (E : I → N → N)
    (S : N → Nat → List Row) (M : N → Nat → N) (netRef t : Nat)
    (trials : Int) (infs : List I) (heap : List N)
    (href : netRef < heap.length) :
    getRef (runSimulation E S M netRef t trials infs heap).2 netRef
        = getRef heap netRef
      ∧ (runSimulation E S M netRef t trials infs heap).1
        = pureRunSimulation E S (getRef heap netRef) t trials infs := by
  by_cases ht : trials ≤ 1
  · cases h0 : infs[0]? with
    | none =>
      refine ⟨?_, ?_⟩
      · simp only [runSimulation, if_pos ht, runSinglePath, h0]
        exact getRef_append_lt heap _ netRef href
      · simp only [runSimulation, if_pos ht, runSinglePath,
          pureRunSimulation, h0]
    | some inf =>
      refine ⟨?_, ?_⟩
      · simp only [runSimulation, if_pos ht, runSinglePath, h0,
          runOneTrial_clone E S M t inf heap (getRef heap netRef)]
        rw [getRef_set_ne _ _ _ _ (Nat.ne_of_gt href),
          getRef_append_lt heap _ netRef href]
      · simp only [runSimulation, if_pos ht, runSinglePath,
          pureRunSimulation, h0,
          runOneTrial_clone E S M t inf heap (getRef heap netRef)]
  · simp only [runSimulation, if_neg ht, runMultiPath, pureRunSimulation,
      if_neg ht]
    obtain ⟨hb1, hb2⟩ := runTrialsAux_bridge E S M netRef t infs
      trials.toNat 0 none heap href
    cases hres : runTrialsAux E S M netRef t infs trials.toNat 0 none heap with
    | mk o h2 =>
      rw [hres] at hb1 hb2
      have ho : o = pureLoop E S (getRef heap netRef) t infs trials.toNat
          0 none := hb1
      have hh : getRef h2 netRef = getRef heap netRef := hb2
      constructor
      · cases hoc : o with
        | none => exact hh
        | some agg => exact hh
      · rw [← ho]
        cases o with
        | none => rfl
        | some agg => rfl

theorem run_single_shape {N I : Type} [Inhabited N] (E : I → N → N)
    (S : N → Nat → List Row) (M : N → Nat → N) (netRef t : Nat)
    (trials : Int) (infs : List I) (heap : List N) (inf : I)
    (h1 : trials ≤ 1) (h2 : infs[0]? = some inf) :
    runSimulation E S M netRef t trials infs heap
      = (some (S (E inf (getRef heap netRef)) t),
         (heap ++ [getRef heap netRef]).set heap.length
           (M (E inf (getRef heap netRef)) t)) := by
  simp only [runSimulation, if_pos h1, runSinglePath, h2,
    runOneTrial_clone E S M t inf heap (getRef heap netRef)]

theorem run_single_head {N I : Type} [Inhabited N] (E : I → N → N)
    (S : N → Nat → List Row) (M : N → Nat → N) (netRef t : Nat)
    (trials : Int) (heap : List N) (h : trials ≤ 1) :
    (∀ infs1 infs2 : List I, infs1[0]? = infs2[0]? →
        runSimulation E S M netRef t trials infs1 heap
          = runSimulation E S M netRef t trials infs2 heap)
      ∧ runSimulation E S M netRef t trials ([] : List I) heap
          = (none, heap ++ [getRef heap netRef]) := by
  constructor
  · intro infs1 infs2 he
    simp only [runSimulation, if_pos h, runSinglePath, he]
  · simp only [runSimulation, if_pos h, runSinglePath]
    rfl

/- ------------------------------------------------------------------ -/
/- The claims.                                                         -/
/- ------------------------------------------------------------------ -/

/-- C1: for every call to `runSimulation` with more than one trial whose
per-trial TimeSeriesRow sets share the same key space (every key of the
first trial's result is present with a numeric total `f i` in every
trial's result), the returned series has, for each such key, a total
equal to the sum of that key's totals across all trials divided by the
trial count. -/
theorem averaging_correct {N I : Type} [Inhabited N] [Inhabited I]
    (E : I → N → N) (S : N → Nat → List Row) (M : N → Nat → N)
    (netRef t : Nat) (trials : Int) (infs : List I) (heap : List N)
    (k : Key) (f : Nat → ℚ)
    (href : netRef < heap.length) (htr : 1 < trials)
    (hlen : trials.toNat ≤ infs.length)
    (hf : ∀ i, i < trials.toNat →
      lookupTotal k (trialIndexed E S (getRef heap netRef) t infs i)
        = some (some (f i))) :
    ∃ out, (runSimulation E S M netRef t trials infs heap).1 = some out ∧
      lookupTotal k (set_index out)
        = some (some ((∑ i ∈ Finset.range trials.toNat, f i)
            / (trials : ℚ))) :=
  run_avg E S M netRef t trials infs heap k f href htr hlen hf

/-- Witness for C1: the toy three-trial scenario, key (0,0,0,1) with
per-trial totals 10, 20, 30. -/
theorem averaging_correct_witness :
    ((0 : Nat) < ([(0 : ℚ)]).length ∧ (1 : Int) < 3
        ∧ (3 : Int).toNat ≤ ([(10 : ℚ), 20, 30]).length
        ∧ ∀ i, i < (3 : Int).toNat →
            lookupTotal (0, 0, 0, 1)
                (trialIndexed egExpose egRows (getRef [(0 : ℚ)] 0) 0
                  [(10 : ℚ), 20, 30] i)
              = some (some (egFI i)))
      ∧ ∃ out, (runSimulation egExpose egRows egMut 0 0 3
            [(10 : ℚ), 20, 30] [(0 : ℚ)]).1 = some out ∧
          lookupTotal (0, 0, 0, 1) (set_index out)
            = some (some ((∑ i ∈ Finset.range (3 : Int).toNat, egFI i)
                / ((3 : Int) : ℚ))) := by
  have hf : ∀ i, i < (3 : Int).toNat →
      lookupTotal (0, 0, 0, 1)
          (trialIndexed egExpose egRows (getRef [(0 : ℚ)] 0) 0
            [(10 : ℚ), 20, 30] i)
        = some (some (egFI i)) := by
    intro i hi
    have hi3 : i < 3 := by omega
    interval_cases i <;>
      norm_num [trialIndexed, set_index, egRows, egExpose, egFI, lookupTotal,
        getRef, Row.key, Prod.ext_iff]
  exact ⟨⟨by decide, by decide, by decide, hf⟩,
    averaging_correct egExpose egRows egMut 0 0 3 [(10 : ℚ), 20, 30]
      [(0 : ℚ)] (0, 0, 0, 1) egFI (by decide) (by decide) (by decide) hf⟩

/-- C2: for a trial count of 1, the multi-trial path (if exercised on the
same network, time horizon and single InfectionSet) and the single-trial
fast path produce numerically identical output, row for row — in fact the
whole outcome, rows and final heap alike, coincides, whether the run
succeeds or fails. -/
theorem single_trial_equiv {N I : Type} [Inhabited N] (E : I → N → N)
    (S : N → Nat → List Row) (M : N → Nat → N) (netRef : Nat) (t : Nat)
    (infs : List I) (heap : List N) :
    runMultiPath E S M netRef t 1 infs heap
      = runSinglePath E S M netRef t infs heap := by
  simp only [runMultiPath]
  rw [show (1 : Int).toNat = 0 + 1 from rfl]
  cases h0 : infs[0]? with
  | none =>
    simp only [runTrialsAux, h0, runSinglePath]
  | some inf =>
    simp only [runTrialsAux, h0, runSinglePath, mergeAgg]
    rw [resetAndDivide_one]

/-- C3 counterexample: a call with a non-positive trial count (0) and a
mismatching InfectionSet list (length 1) does not fail at all, let alone
fail fast before any trial executes: the single-trial path runs, the
model executes, and a full row set is returned. -/
theorem fail_fast_false :
    (runSimulation egExpose egRows egMut 0 0 (0 : Int)
        [(10 : ℚ)] [(0 : ℚ)]).1
      = some [⟨0, 0, 0, 0, some 990⟩, ⟨0, 0, 0, 1, some 10⟩] := by
  have h := run_single_shape egExpose egRows egMut 0 0 0 [(10 : ℚ)]
    [(0 : ℚ)] 10 (by decide) rfl
  rw [h]
  norm_num [egRows, egExpose, getRef]

/-- C3 amended: `runSimulation` performs no validation of the trial count
against the InfectionSet list.  With more trials requested than
InfectionSets supplied (and trial count above 1), every trial with an
available InfectionSet first executes in full; the call fails only on
reaching the first missing index, by which time one clone per completed
trial plus one further clone have been made (the heap has grown by
`infs.length + 1` cells).  With a trial count at most 1 no check happens
at all and a single trial simply runs. -/
theorem mismatch_fails_after_trials {N I : Type} [Inhabited N]
    (E : I → N → N) (S : N → Nat → List Row) (M : N → Nat → N)
    (netRef t : Nat) (trials : Int) (infs : List I) (heap : List N)
    (htr : 1 < trials) (hlen : infs.length < trials.toNat) :
    (runSimulation E S M netRef t trials infs heap).1 = none ∧
      (runSimulation E S M netRef t trials infs heap).2.length
        = heap.length + infs.length + 1 :=
  run_fail E S M netRef t trials infs heap htr hlen

/-- Witness for the amended C3: the spec's own invalid-configuration
scenario, 5 trials with a single InfectionSet — trial 1 runs before the
failure, leaving three heap cells. -/
theorem mismatch_fails_after_trials_witness :
    ((1 : Int) < 5 ∧ ([(10 : ℚ)]).length < (5 : Int).toNat)
      ∧ ((runSimulation egExpose egRows egMut 0 0 5 [(10 : ℚ)]
            [(0 : ℚ)]).1 = none
        ∧ (runSimulation egExpose egRows egMut 0 0 5 [(10 : ℚ)]
            [(0 : ℚ)]).2.length = ([(0 : ℚ)]).length + ([(10 : ℚ)]).length + 1) :=
  ⟨⟨by decide, by decide⟩,
   mismatch_fails_after_trials egExpose egRows egMut 0 0 5 [(10 : ℚ)]
     [(0 : ℚ)] (by decide) (by decide)⟩

/-- C4 counterexample: a two-trial run in which trial 2's result has an
extra key (0,0,0,1) absent from trial 1's result does not fail loudly:
`runSimulation` returns successfully, the extra key is silently dropped
(the output's key set is exactly trial 1's single key), and the returned
average looks complete — a numeric total, no NaN. -/
theorem key_mismatch_silent :
    ∃ out, (runSimulation egExpose2 egRows2 egMut 0 0 (2 : Int)
        [(2 : ℚ), 1] [(0 : ℚ)]).1 = some out
      ∧ out.map Row.key = [(0, 0, 0, 0)]
      ∧ lookupTotal (0, 0, 0, 0) (set_index out) = some (some 4) := by
  have hf : ∀ i, i < (2 : Int).toNat →
      lookupTotal (0, 0, 0, 0)
          (trialIndexed egExpose2 egRows2 (getRef [(0 : ℚ)] 0) 0
            [(2 : ℚ), 1] i)
        = some (some ((fun i => 3 + 2 * (i : ℚ)) i)) := by
    intro i hi
    have hi2 : i < 2 := by omega
    interval_cases i <;>
      norm_num [trialIndexed, set_index, egRows2, egExpose2, lookupTotal,
        getRef, Row.key, Prod.ext_iff]
  obtain ⟨out, hout, hlook⟩ := run_avg egExpose2 egRows2 egMut 0 0 2
    [(2 : ℚ), 1] [(0 : ℚ)] (0, 0, 0, 0) (fun i => 3 + 2 * (i : ℚ))
    (by decide) (by decide) (by decide) hf
  obtain ⟨out2, hout2, hkeys⟩ := run_first_trial_keys egExpose2 egRows2
    egMut 0 0 2 [(2 : ℚ), 1] [(0 : ℚ)] (by decide) (by decide) (by decide)
  have heq : out2 = out := Option.some.inj (by rw [← hout, ← hout2])
  refine ⟨out, hout, ?_, ?_⟩
  · rw [← heq, hkeys]
    norm_num [trialIndexed, set_index, egRows2, egExpose2, keysOf, getRef,
      Row.key]
  · rw [hlook]
    rw [show (2 : Int).toNat = 1 + 1 from rfl, Finset.sum_range_succ,
      show (1 : Nat) = 0 + 1 from rfl, Finset.sum_range_succ,
      Finset.sum_range_zero]
    norm_num

/-- C4 amended: when a key of the first trial's result is missing from
some later trial's result, `runSimulation` does not fail: it returns
successfully and that key's total in the output is NaN (and, per the
counterexample, keys absent from the first trial are silently dropped
rather than reported). -/
theorem key_mismatch_nan {N I : Type} [Inhabited N] [Inhabited I]
    (E : I → N → N) (S : N → Nat → List Row) (M : N → Nat → N)
    (netRef t : Nat) (trials : Int) (infs : List I) (heap : List N)
    (k : Key) (j : Nat)
    (href : netRef < heap.length) (htr : 1 < trials)
    (hlen : trials.toNat ≤ infs.length)
    (hk : k ∈ keysOf (trialIndexed E S (getRef heap netRef) t infs 0))
    (hj1 : 1 ≤ j) (hj2 : j < trials.toNat)
    (hmiss : lookupTotal k (trialIndexed E S (getRef heap netRef) t infs j)
      = none) :
    ∃ out, (runSimulation E S M netRef t trials infs heap).1 = some out ∧
      lookupTotal k (set_index out) = some none :=
  run_nan E S M netRef t trials infs heap k j href htr hlen hk hj1 hj2 hmiss

/-- Witness for the amended C4: two toy trials, the second missing key
(0,0,0,1) of the first — the run succeeds and that key's averaged total
is NaN. -/
theorem key_mismatch_nan_witness :
    ((0 : Nat) < ([(0 : ℚ)]).length ∧ (1 : Int) < 2
        ∧ (2 : Int).toNat ≤ ([(1 : ℚ), 2]).length
        ∧ (0, 0, 0, 1) ∈ keysOf (trialIndexed egExpose2 egRows2
            (getRef [(0 : ℚ)] 0) 0 [(1 : ℚ), 2] 0)
        ∧ (1 : Nat) ≤ 1 ∧ (1 : Nat) < (2 : Int).toNat
        ∧ lookupTotal (0, 0, 0, 1) (trialIndexed egExpose2 egRows2
            (getRef [(0 : ℚ)] 0) 0 [(1 : ℚ), 2] 1) = none)
      ∧ ∃ out, (runSimulation egExpose2 egRows2 egMut 0 0 2 [(1 : ℚ), 2]
            [(0 : ℚ)]).1 = some out ∧
          lookupTotal (0, 0, 0, 1) (set_index out) = some none := by
  have hk : (0, 0, 0, 1) ∈ keysOf (trialIndexed egExpose2 egRows2
      (getRef [(0 : ℚ)] 0) 0 [(1 : ℚ), 2] 0) := by
    norm_num [trialIndexed, set_index, egRows2, egExpose2, keysOf, getRef,
      Row.key]
  have hmiss : lookupTotal (0, 0, 0, 1) (trialIndexed egExpose2 egRows2
      (getRef [(0 : ℚ)] 0) 0 [(1 : ℚ), 2] 1) = none := by
    norm_num [trialIndexed, set_index, egRows2, egExpose2, lookupTotal,
      getRef, Row.key, Prod.ext_iff]
  exact ⟨⟨by decide, by decide, by decide, hk, by decide, by decide, hmiss⟩,
    key_mismatch_nan egExpose2 egRows2 egMut 0 0 2 [(1 : ℚ), 2] [(0 : ℚ)]
      (0, 0, 0, 1) 1 (by decide) (by decide) (by decide) hk (by decide)
      (by decide) hmiss⟩

/-- C5: with a trial count at most 1 and a first InfectionSet available,
`runSimulation` clones the network template exactly once (the final heap
is the old heap plus the one clone cell, mutated in place), applies the
sole InfectionSet to the clone, runs the model exactly once on it, and
returns the model's TimeSeriesRow output unmodified — no re-keying and no
division is applied to it. -/
theorem single_path_shape {N I : Type} [Inhabited N] (E : I → N → N)
    (S : N → Nat → List Row) (M : N → Nat → N) (netRef t : Nat)
    (trials : Int) (infs : List I) (heap : List N) (inf : I)
    (h1 : trials ≤ 1) (h2 : infs[0]? = some inf) :
    runSimulation E S M netRef t trials infs heap
      = (some (S (E inf (getRef heap netRef)) t),
         (heap ++ [getRef heap netRef]).set heap.length
           (M (E inf (getRef heap netRef)) t)) :=
  run_single_shape E S M netRef t trials infs heap inf h1 h2

/-- Witness for C5: one trial on the toy network. -/
theorem single_path_shape_witness :
    ((1 : Int) ≤ 1 ∧ ([(5 : ℚ)])[0]? = some 5)
      ∧ runSimulation egExpose egRows egMut 0 0 1 [(5 : ℚ)] [(100 : ℚ)]
        = (some (egRows (egExpose 5 (getRef [(100 : ℚ)] 0)) 0),
           ([(100 : ℚ)] ++ [getRef [(100 : ℚ)] 0]).set 1
             (egMut (egExpose 5 (getRef [(100 : ℚ)] 0)) 0)) :=
  ⟨⟨by decide, rfl⟩,
   single_path_shape egExpose egRows egMut 0 0 1 [(5 : ℚ)] [(100 : ℚ)] 5
     (by decide) rfl⟩

/-- C6: `runSimulation` leaves the network template unchanged — after the
call (successful or not, single- or multi-trial) the template's heap cell
holds its original value — and the entire observable result is a function
of the template's original value, the time horizon, the trial count and
the InfectionSets alone (`pureRunSimulation`, in which trial `i`'s rows
are computed from a fresh copy of the original template and
`initialInfections[i]` only), so mutations made during one trial are
never visible to the template, to any other trial's snapshot, or to any
InfectionSet. -/
theorem trial_isolation {N I : Type} [Inhabited N] (E : I → N → N)
    (S : N → Nat → List Row) (M : N → Nat → N) (netRef t : Nat)
    (trials : Int) (infs : List I) (heap : List N)
    (href : netRef < heap.length) :
    getRef (runSimulation E S M netRef t trials infs heap).2 netRef
        = getRef heap netRef
      ∧ (runSimulation E S M netRef t trials infs heap).1
        = pureRunSimulation E S (getRef heap netRef) t trials infs :=
  run_isolation E S M netRef t trials infs heap href

/-- Witness for C6: the toy three-trial run preserves the template cell
and equals its heap-free mirror. -/
theorem trial_isolation_witness :
    ((0 : Nat) < ([(0 : ℚ)]).length)
      ∧ (getRef (runSimulation egExpose egRows egMut 0 0 3
            [(10 : ℚ), 20, 30] [(0 : ℚ)]).2 0 = getRef [(0 : ℚ)] 0
        ∧ (runSimulation egExpose egRows egMut 0 0 3
            [(10 : ℚ), 20, 30] [(0 : ℚ)]).1
          = pureRunSimulation egExpose egRows (getRef [(0 : ℚ)] 0) 0 3
              [(10 : ℚ), 20, 30]) :=
  ⟨by decide,
   trial_isolation egExpose egRows egMut 0 0 3 [(10 : ℚ), 20, 30]
     [(0 : ℚ)] (by decide)⟩

/-- C7: for every multi-trial run whose per-trial results all have the
same key space, the key sequence of the final averaged output equals the
key space of every single trial's output — aggregation and the final
division neither add nor lose keys. -/
theorem key_space_stable {N I : Type} [Inhabited N] [Inhabited I]
    (E : I → N → N) (S : N → Nat → List Row) (M : N → Nat → N)
    (netRef t : Nat) (trials : Int) (infs : List I) (heap : List N)
    (href : netRef < heap.length) (htr : 1 < trials)
    (hlen : trials.toNat ≤ infs.length)
    (hsame : ∀ i, i < trials.toNat →
      keysOf (trialIndexed E S (getRef heap netRef) t infs i)
        = keysOf (trialIndexed E S (getRef heap netRef) t infs 0)) :
    ∃ out, (runSimulation E S M netRef t trials infs heap).1 = some out ∧
      ∀ i, i < trials.toNat →
        out.map Row.key
          = keysOf (trialIndexed E S (getRef heap netRef) t infs i) := by
  obtain ⟨out, hout, hkeys⟩ := run_first_trial_keys E S M netRef t trials
    infs heap href htr hlen
  refine ⟨out, hout, fun i hi => ?_⟩
  rw [hkeys, hsame i hi]

/-- Witness for C7: the toy three-trial scenario, whose trials all have
the key space [(0,0,0,0), (0,0,0,1)]. -/
theorem key_space_stable_witness :
    ((0 : Nat) < ([(0 : ℚ)]).length ∧ (1 : Int) < 3
        ∧ (3 : Int).toNat ≤ ([(10 : ℚ), 20, 30]).length
        ∧ ∀ i, i < (3 : Int).toNat →
            keysOf (trialIndexed egExpose egRows (getRef [(0 : ℚ)] 0) 0
                [(10 : ℚ), 20, 30] i)
              = keysOf (trialIndexed egExpose egRows (getRef [(0 : ℚ)] 0) 0
                [(10 : ℚ), 20, 30] 0))
      ∧ ∃ out, (runSimulation egExpose egRows egMut 0 0 3
            [(10 : ℚ), 20, 30] [(0 : ℚ)]).1 = some out ∧
          ∀ i, i < (3 : Int).toNat →
            out.map Row.key
              = keysOf (trialIndexed egExpose egRows (getRef [(0 : ℚ)] 0) 0
                  [(10 : ℚ), 20, 30] i) := by
  have hsame : ∀ i, i < (3 : Int).toNat →
      keysOf (trialIndexed egExpose egRows (getRef [(0 : ℚ)] 0) 0
          [(10 : ℚ), 20, 30] i)
        = keysOf (trialIndexed egExpose egRows (getRef [(0 : ℚ)] 0) 0
            [(10 : ℚ), 20, 30] 0) := by
    intro i hi
    have hi3 : i < 3 := by omega
    interval_cases i <;>
      norm_num [trialIndexed, set_index, egRows, egExpose, keysOf, getRef,
        Row.key]
  exact ⟨⟨by decide, by decide, by decide, hsame⟩,
    key_space_stable egExpose egRows egMut 0 0 3 [(10 : ℚ), 20, 30]
      [(0 : ℚ)] (by decide) (by decide) (by decide) hsame⟩

/-- C8: the concrete scenario — one node, one age group, compartments
S (encoded 0) and I (encoded 1), time horizon 0, three trials whose
per-trial results at time 0 have I-totals 10, 20, 30 and S-totals
990, 980, 970: `runSimulation` returns, at time 0, S-total 980 and
I-total 20. -/
theorem concrete_scenario :
    ∃ out, (runSimulation egExpose egRows egMut 0 0 (3 : Int)
        [(10 : ℚ), 20, 30] [(0 : ℚ)]).1 = some out
      ∧ lookupTotal (0, 0, 0, 0) (set_index out) = some (some 980)
      ∧ lookupTotal (0, 0, 0, 1) (set_index out) = some (some 20) := by
  have hfS : ∀ i, i < (3 : Int).toNat →
      lookupTotal (0, 0, 0, 0)
          (trialIndexed egExpose egRows (getRef [(0 : ℚ)] 0) 0
            [(10 : ℚ), 20, 30] i)
        = some (some ((fun i => 990 - 10 * (i : ℚ)) i)) := by
    intro i hi
    have hi3 : i < 3 := by omega
    interval_cases i <;>
      norm_num [trialIndexed, set_index, egRows, egExpose, lookupTotal,
        getRef, Row.key, Prod.ext_iff]
  have hfI : ∀ i, i < (3 : Int).toNat →
      lookupTotal (0, 0, 0, 1)
          (trialIndexed egExpose egRows (getRef [(0 : ℚ)] 0) 0
            [(10 : ℚ), 20, 30] i)
        = some (some (egFI i)) := by
    intro i hi
    have hi3 : i < 3 := by omega
    interval_cases i <;>
      norm_num [trialIndexed, set_index, egRows, egExpose, egFI, lookupTotal,
        getRef, Row.key, Prod.ext_iff]
  obtain ⟨outS, houtS, hS⟩ := run_avg egExpose egRows egMut 0 0 3
    [(10 : ℚ), 20, 30] [(0 : ℚ)] (0, 0, 0, 0) (fun i => 990 - 10 * (i : ℚ))
    (by decide) (by decide) (by decide) hfS
  obtain ⟨outI, houtI, hI⟩ := run_avg egExpose egRows egMut 0 0 3
    [(10 : ℚ), 20, 30] [(0 : ℚ)] (0, 0, 0, 1) egFI
    (by decide) (by decide) (by decide) hfI
  have heq : outI = outS := Option.some.inj (by rw [← houtS, ← houtI])
  refine ⟨outS, houtS, ?_, ?_⟩
  · rw [hS]
    rw [show (3 : Int).toNat = 2 + 1 from rfl, Finset.sum_range_succ,
      show (2 : Nat) = 1 + 1 from rfl, Finset.sum_range_succ,
      show (1 : Nat) = 0 + 1 from rfl, Finset.sum_range_succ,
      Finset.sum_range_zero]
    norm_num
  · rw [← heq, hI]
    rw [show (3 : Int).toNat = 2 + 1 from rfl, Finset.sum_range_succ,
      show (2 : Nat) = 1 + 1 from rfl, Finset.sum_range_succ,
      show (1 : Nat) = 0 + 1 from rfl, Finset.sum_range_succ,
      Finset.sum_range_zero]
    norm_num [egFI]

/-- C9: with a trial count at most 1, the result of `runSimulation`
depends only on `initialInfections[0]`: lists agreeing at index 0 give
identical outcomes (further entries are never read), and with an empty
list the call fails at the very first access instead of running the
model — the returned heap holds only the untouched clone of the
template. -/
theorem single_uses_first_infection {N I : Type} [Inhabited N]
    (E : I → N → N) (S : N → Nat → List Row) (M : N → Nat → N)
    (netRef t : Nat) (trials : Int) (heap : List N)
    (h : trials ≤ 1) :
    (∀ infs1 infs2 : List I, infs1[0]? = infs2[0]? →
        runSimulation E S M netRef t trials infs1 heap
          = runSimulation E S M netRef t trials infs2 heap)
      ∧ runSimulation E S M netRef t trials ([] : List I) heap
          = (none, heap ++ [getRef heap netRef]) :=
  run_single_head E S M netRef t trials heap h

/-- Witness for C9: trial count 0 on the toy network. -/
theorem single_uses_first_infection_witness :
    ((0 : Int) ≤ 1)
      ∧ ((∀ infs1 infs2 : List ℚ, infs1[0]? = infs2[0]? →
            runSimulation egExpose egRows egMut 0 0 0 infs1 [(7 : ℚ)]
              = runSimulation egExpose egRows egMut 0 0 0 infs2 [(7 : ℚ)])
          ∧ runSimulation egExpose egRows egMut 0 0 0 ([] : List ℚ)
              [(7 : ℚ)]
            = (none, [(7 : ℚ)] ++ [getRef [(7 : ℚ)] 0])) :=
  ⟨by decide,
   single_uses_first_infection egExpose egRows egMut 0 0 0 [(7 : ℚ)]
     (by decide)⟩

/-- C10: the CLI's `random` subcommand declares `--regions` without an
integer type: a value supplied on the command line reaches the seeding
interface as the raw string token, while the omitted flag yields the
integer default 1 — so the two invocation styles pass values of different
types. -/
theorem regions_flag_types :
    (∀ tok : String, regionsArg (some tok) = Sum.inl tok)
      ∧ regionsArg none = Sum.inr 1
      ∧ ∀ tok : String, regionsArg (some tok) ≠ regionsArg none :=
  ⟨fun _ => rfl, rfl, fun _ h => Sum.noConfusion h⟩

end SNS
